import Mathlib

/-!
# Verification of the unicode-explorer hex parsing, block catalog and UCD name builder

Shallow embedding of the core of the `unicode-explorer` repository:

* `src/app/data/unicode-blocks.ts` — the fixed block catalog, `parseHexSearch`
  and `parseCodePoint`;
* the UCD build script (`scripts/build-unicode-data.ts`) — Hangul/CJK
  algorithmic naming, the XML parse pass and the backfill stages;
* `src/app/data/unicode-names.server.ts` and its variant copy — the
  per-block name loader and `getCharacterName`.

JavaScript strings are modelled as Lean `String`/`List Char`.
`String.prototype.toUpperCase`/`toLowerCase` are modelled by their ASCII
letter mappings only. That is exact on ASCII strings and on the hexadecimal
attribute strings the build script uppercases, but ECMA-262 `toUpperCase`
additionally applies the Unicode full case mappings (SpecialCasing: the
ligature U+FB01 uppercases to the two-character string `FI`, U+FB00 to `FF`,
and so on), which can manufacture ASCII hex digits from non-ASCII input.
Statements about `parseHexSearch` — the one function that parses a
user-controlled string *after* uppercasing it — are therefore quantified over
ASCII input, where the model coincides with the program; `parseCodePoint`
never uppercases, so no restriction is needed there.
`parseInt(s, 16)` is modelled by `jsParseIntHex`, following ECMA-262
(leading `StrWhiteSpace`, optional sign, optional `0x`/`0X` prefix,
then the longest run of hexadecimal digits, `NaN` — `none` — if that run
is empty).
-/

/-- ECMA-262 `StrWhiteSpaceChar`: WhiteSpace ∪ LineTerminator, by code point:
TAB LF VT FF CR SP NBSP OGHAM-SP, U+2000–U+200A, LS PS NNBSP MMSP IDSP ZWNBSP. -/
def isJsWhitespace (c : Char) : Bool :=
  decide (c.toNat = 9 ∨ c.toNat = 10 ∨ c.toNat = 11 ∨ c.toNat = 12 ∨ c.toNat = 13 ∨
    c.toNat = 32 ∨ c.toNat = 160 ∨ c.toNat = 5760 ∨
    (8192 ≤ c.toNat ∧ c.toNat ≤ 8202) ∨ c.toNat = 8232 ∨ c.toNat = 8233 ∨
    c.toNat = 8239 ∨ c.toNat = 8287 ∨ c.toNat = 12288 ∨ c.toNat = 65279)

/-- Hexadecimal digit as accepted by `parseInt(·, 16)`: `0-9`, `A-F`, `a-f`. -/
def isHexDigitChar (c : Char) : Bool :=
  decide ((48 ≤ c.toNat ∧ c.toNat ≤ 57) ∨ (65 ≤ c.toNat ∧ c.toNat ≤ 70) ∨
    (97 ≤ c.toNat ∧ c.toNat ≤ 102))

/-- Numeric value of a hexadecimal digit (0 on non-digits, never reached on them). -/
def hexDigitVal (c : Char) : Nat :=
  if 48 ≤ c.toNat ∧ c.toNat ≤ 57 then c.toNat - 48
  else if 65 ≤ c.toNat ∧ c.toNat ≤ 70 then c.toNat - 55
  else if 97 ≤ c.toNat ∧ c.toNat ≤ 102 then c.toNat - 87
  else 0

/-- ASCII single-character model of `String.prototype.toUpperCase`:
`a`–`z` (code points 97–122) map to `A`–`Z`, everything else is unchanged.
Exact on ASCII characters and hence on the hexadecimal attribute strings the
build script uppercases; the Unicode full case mappings (SpecialCasing) that
the real `toUpperCase` also applies to non-ASCII characters — and which can
produce ASCII hex digits, e.g. the ligature U+FB01 becomes `FI` — are not
modelled, so theorems about `parseHexSearch` on user-controlled query strings
carry an ASCII hypothesis. -/
def toUpperChar (c : Char) : Char :=
  if 97 ≤ c.toNat ∧ c.toNat ≤ 122 then Char.ofNat (c.toNat - 32) else c

/-- ASCII single-character model of `String.prototype.toLowerCase`:
`A`–`Z` (code points 65–90) map to `a`–`z`, everything else is unchanged. -/
def toLowerChar (c : Char) : Char :=
  if 65 ≤ c.toNat ∧ c.toNat ≤ 90 then Char.ofNat (c.toNat + 32) else c

/-- `toUpperCase` of a whole string. -/
def toUpperStr (s : String) : String := String.mk (s.data.map toUpperChar)

/-- Value of a list of hexadecimal digit characters, most significant first. -/
def hexListVal (l : List Char) : Nat :=
  l.foldl (fun a c => a * 16 + hexDigitVal c) 0

/-- Sign handling of `parseInt`: an optional leading `-` or `+`. -/
def jsSignSplit (l : List Char) : Int × List Char :=
  match l with
  | [] => (1, [])
  | c :: r => if c = '-' then (-1, r) else if c = '+' then (1, r) else (1, l)

/-- Radix-16 `parseInt` strips one leading `0x`/`0X` after the sign. -/
def jsStrip0x (l : List Char) : List Char :=
  match l with
  | c0 :: c1 :: r => if c0 = '0' ∧ (c1 = 'x' ∨ c1 = 'X') then r else c0 :: c1 :: r
  | _ => l

/-- ECMA-262 `parseInt(s, 16)`; `none` is `NaN`. -/
def jsParseIntHex (l : List Char) : Option Int :=
  let l1 := l.dropWhile isJsWhitespace
  let sl := jsSignSplit l1
  let ds := (jsStrip0x sl.2).takeWhile isHexDigitChar
  if ds.isEmpty then none else some (sl.1 * Int.ofNat (hexListVal ds))

/-- Does the regex `/U\+|0x/i` match at the start of `l`?
(`U+` case-insensitively, or `0` followed by `x`/`X`.) -/
def hexMarkAt (l : List Char) : Bool :=
  match l with
  | c0 :: c1 :: _ =>
    decide (((c0 = 'U' ∨ c0 = 'u') ∧ c1 = '+') ∨ (c0 = '0' ∧ (c1 = 'x' ∨ c1 = 'X')))
  | _ => false

/-- `codePointStr.replace(/^(U\+|0x)/i, "")`: strip the mark only at position 0. -/
def stripLeadingHexMark (l : List Char) : List Char :=
  if hexMarkAt l then l.drop 2 else l

/-- `query.replace(/U\+|0x/i, "")` (no `^` anchor, no `g` flag): remove the
leftmost occurrence of the mark, anywhere in the string. -/
def stripFirstHexMark : List Char → List Char
  | [] => []
  | c :: rest =>
    if hexMarkAt (c :: rest) then List.drop 1 rest else c :: stripFirstHexMark rest

/-- `parseHexSearch` from `src/app/data/unicode-blocks.ts`:
`query.replace(/U\+|0x/i, "").toUpperCase()`, `parseInt(·, 16)`,
then the `0 ≤ · ≤ 0x10FFFF` check. -/
def parseHexSearch (query : String) : Option Nat :=
  match jsParseIntHex ((stripFirstHexMark query.data).map toUpperChar) with
  | none => none
  | some v => if 0 ≤ v ∧ v ≤ 0x10ffff then some v.toNat else none

/-- `parseCodePoint` from `src/app/data/unicode-blocks.ts`:
`codePointStr.replace(/^(U\+|0x)/i, "")`, `parseInt(·, 16)`,
then the same `0 ≤ · ≤ 0x10FFFF` check. -/
def parseCodePoint (codePointStr : String) : Option Nat :=
  match jsParseIntHex (stripLeadingHexMark codePointStr.data) with
  | none => none
  | some v => if 0 ≤ v ∧ v ≤ 0x10ffff then some v.toNat else none


/-! ## Rendering a code point as uppercase hexadecimal (`cp.toString(16).toUpperCase()`) -/

/-- Fuel-driven little-endian base-16 digit extraction (structural recursion so
that the kernel can evaluate it). -/
def toHexRevAux : Nat → Nat → List Nat
  | 0, n => [n % 16]
  | fuel + 1, n => if n < 16 then [n] else n % 16 :: toHexRevAux fuel (n / 16)

/-- Base-16 digits of `n`, least significant first; `[0]` for `0`
(as `(0).toString(16) = "0"`). -/
def hexDigitsRev (n : Nat) : List Nat := toHexRevAux n n

/-- Uppercase hexadecimal digit character for a value below 16. -/
def hexDigitChar (d : Nat) : Char :=
  if d < 10 then Char.ofNat (48 + d) else Char.ofNat (55 + d)

/-- Model of `n.toString(16).toUpperCase()` for a natural number: uppercase
hexadecimal digits, most significant first, no padding. -/
def toUpperHexStr (n : Nat) : String :=
  String.mk ((hexDigitsRev n).reverse.map hexDigitChar)

/-- Model of `s.padStart(4, "0")`. -/
def padStart4 (s : String) : String :=
  String.mk (List.replicate (4 - s.data.length) '0' ++ s.data)

/-! ## The block catalog (`UNICODE_BLOCKS_RAW`, identical in
`src/app/data/unicode-blocks.ts` and the build script) -/

/-- A catalog entry before slug derivation. The source field `end` is a Lean
keyword and is called `stop` here. -/
structure RawBlock where
  name : String
  start : Nat
  stop : Nat
  cat : String
deriving DecidableEq

/-- A catalog entry with its derived slug (`UnicodeBlock` in the source). -/
structure UnicodeBlock where
  name : String
  start : Nat
  stop : Nat
  cat : String
  slug : String
deriving DecidableEq

/-- Characters kept verbatim by the slug regex `[^a-z0-9]+` (after lowercasing). -/
def isSlugChar (c : Char) : Bool :=
  decide ((97 ≤ c.toNat ∧ c.toNat ≤ 122) ∨ (48 ≤ c.toNat ∧ c.toNat ≤ 57))

/-- `replace(/[^a-z0-9]+/g, "-")`: each maximal run of non-alphanumeric
characters becomes a single hyphen. The flag records whether the previous
character was folded into a hyphen already. -/
def collapseNonAlnum : Bool → List Char → List Char
  | _, [] => []
  | prevDash, c :: rest =>
    if isSlugChar c then c :: collapseNonAlnum false rest
    else if prevDash then collapseNonAlnum true rest
    else '-' :: collapseNonAlnum true rest

/-- Remove one leading hyphen (the `^-` alternative of `/(^-|-$)/g`). -/
def dropLeadingDash (l : List Char) : List Char :=
  match l with
  | '-' :: r => r
  | _ => l

/-- Remove one trailing hyphen (the `-$` alternative of `/(^-|-$)/g`). -/
def dropTrailingDash (l : List Char) : List Char :=
  (dropLeadingDash l.reverse).reverse

/-- `createSlug` from the source: lowercase, collapse non-alphanumeric runs to
single hyphens, trim a leading and a trailing hyphen. -/
def createSlug (name : String) : String :=
  String.mk (dropTrailingDash (dropLeadingDash (collapseNonAlnum false (name.data.map toLowerChar))))

/-- Catalog table, part 1 of 4: the list is split into a few
sub-literals only to keep elaboration fast; their concatenation below is the
source table verbatim. -/
def UNICODE_BLOCKS_RAW_0 : List RawBlock := [
  ⟨"Basic Latin (ASCII)", 0x0000, 0x007f, "Latin"⟩,
  ⟨"Latin-1 Supplement", 0x0080, 0x00ff, "Latin"⟩,
  ⟨"Latin Extended-A", 0x0100, 0x017f, "Latin"⟩,
  ⟨"Latin Extended-B", 0x0180, 0x024f, "Latin"⟩,
  ⟨"IPA Extensions", 0x0250, 0x02af, "Latin"⟩,
  ⟨"Spacing Modifier Letters", 0x02b0, 0x02ff, "Latin"⟩,
  ⟨"Combining Diacritical Marks", 0x0300, 0x036f, "Latin"⟩,
  ⟨"Greek and Coptic", 0x0370, 0x03ff, "European"⟩,
  ⟨"Cyrillic", 0x0400, 0x04ff, "European"⟩,
  ⟨"Cyrillic Supplement", 0x0500, 0x052f, "European"⟩,
  ⟨"Armenian", 0x0530, 0x058f, "European"⟩,
  ⟨"Hebrew", 0x0590, 0x05ff, "Middle East"⟩,
  ⟨"Arabic", 0x0600, 0x06ff, "Middle East"⟩,
  ⟨"Syriac", 0x0700, 0x074f, "Middle East"⟩,
  ⟨"Arabic Supplement", 0x0750, 0x077f, "Middle East"⟩,
  ⟨"Thaana", 0x0780, 0x07bf, "Middle East"⟩,
  ⟨"NKo", 0x07c0, 0x07ff, "Africa"⟩,
  ⟨"Devanagari", 0x0900, 0x097f, "South Asia"⟩,
  ⟨"Bengali", 0x0980, 0x09ff, "South Asia"⟩,
  ⟨"Gurmukhi", 0x0a00, 0x0a7f, "South Asia"⟩,
  ⟨"Gujarati", 0x0a80, 0x0aff, "South Asia"⟩,
  ⟨"Oriya", 0x0b00, 0x0b7f, "South Asia"⟩,
  ⟨"Tamil", 0x0b80, 0x0bff, "South Asia"⟩,
  ⟨"Telugu", 0x0c00, 0x0c7f, "South Asia"⟩,
  ⟨"Kannada", 0x0c80, 0x0cff, "South Asia"⟩,
  ⟨"Malayalam", 0x0d00, 0x0d7f, "South Asia"⟩,
  ⟨"Sinhala", 0x0d80, 0x0dff, "South Asia"⟩,
  ⟨"Thai", 0x0e00, 0x0e7f, "SE Asia"⟩,
  ⟨"Lao", 0x0e80, 0x0eff, "SE Asia"⟩,
  ⟨"Tibetan", 0x0f00, 0x0fff, "SE Asia"⟩
]

/-- Catalog table, part 2 of 4: the list is split into a few
sub-literals only to keep elaboration fast; their concatenation below is the
source table verbatim. -/
def UNICODE_BLOCKS_RAW_1 : List RawBlock := [
  ⟨"Myanmar", 0x1000, 0x109f, "SE Asia"⟩,
  ⟨"Georgian", 0x10a0, 0x10ff, "European"⟩,
  ⟨"Hangul Jamo", 0x1100, 0x11ff, "East Asia"⟩,
  ⟨"Ethiopic", 0x1200, 0x137f, "Africa"⟩,
  ⟨"Cherokee", 0x13a0, 0x13ff, "American"⟩,
  ⟨"Unified Canadian Aboriginal", 0x1400, 0x167f, "American"⟩,
  ⟨"Ogham", 0x1680, 0x169f, "Historic"⟩,
  ⟨"Runic", 0x16a0, 0x16ff, "Historic"⟩,
  ⟨"Tagalog", 0x1700, 0x171f, "SE Asia"⟩,
  ⟨"Khmer", 0x1780, 0x17ff, "SE Asia"⟩,
  ⟨"Mongolian", 0x1800, 0x18af, "East Asia"⟩,
  ⟨"Phonetic Extensions", 0x1d00, 0x1d7f, "Language"⟩,
  ⟨"Latin Extended Additional", 0x1e00, 0x1eff, "Latin"⟩,
  ⟨"Greek Extended", 0x1f00, 0x1fff, "European"⟩,
  ⟨"General Punctuation", 0x2000, 0x206f, "Symbols"⟩,
  ⟨"Superscripts and Subscripts", 0x2070, 0x209f, "Symbols"⟩,
  ⟨"Currency Symbols", 0x20a0, 0x20cf, "Symbols"⟩,
  ⟨"Combining Diacritical Marks for Symbols", 0x20d0, 0x20ff, "Symbols"⟩,
  ⟨"Letterlike Symbols", 0x2100, 0x214f, "Symbols"⟩,
  ⟨"Number Forms", 0x2150, 0x218f, "Symbols"⟩,
  ⟨"Arrows", 0x2190, 0x21ff, "Arrows"⟩,
  ⟨"Mathematical Operators", 0x2200, 0x22ff, "Math"⟩,
  ⟨"Miscellaneous Technical", 0x2300, 0x23ff, "Tech"⟩,
  ⟨"Control Pictures", 0x2400, 0x243f, "Tech"⟩,
  ⟨"OCR", 0x2440, 0x245f, "Tech"⟩,
  ⟨"Enclosed Alphanumerics", 0x2460, 0x24ff, "Symbols"⟩,
  ⟨"Box Drawing", 0x2500, 0x257f, "Shapes"⟩,
  ⟨"Block Elements", 0x2580, 0x259f, "Shapes"⟩,
  ⟨"Geometric Shapes", 0x25a0, 0x25ff, "Shapes"⟩,
  ⟨"Miscellaneous Symbols", 0x2600, 0x26ff, "Symbols"⟩
]

/-- Catalog table, part 3 of 4: the list is split into a few
sub-literals only to keep elaboration fast; their concatenation below is the
source table verbatim. -/
def UNICODE_BLOCKS_RAW_2 : List RawBlock := [
  ⟨"Dingbats", 0x2700, 0x27bf, "Symbols"⟩,
  ⟨"Misc Mathematical Symbols-A", 0x27c0, 0x27ef, "Math"⟩,
  ⟨"Supplemental Arrows-A", 0x27f0, 0x27ff, "Arrows"⟩,
  ⟨"Braille Patterns", 0x2800, 0x28ff, "Language"⟩,
  ⟨"Supplemental Arrows-B", 0x2900, 0x297f, "Arrows"⟩,
  ⟨"Misc Mathematical Symbols-B", 0x2980, 0x29ff, "Math"⟩,
  ⟨"Supplemental Math Operators", 0x2a00, 0x2aff, "Math"⟩,
  ⟨"Misc Symbols and Arrows", 0x2b00, 0x2bff, "Arrows"⟩,
  ⟨"CJK Radicals Supplement", 0x2e80, 0x2eff, "East Asia"⟩,
  ⟨"Kangxi Radicals", 0x2f00, 0x2fdf, "East Asia"⟩,
  ⟨"Ideographic Description", 0x2ff0, 0x2fff, "East Asia"⟩,
  ⟨"CJK Symbols and Punctuation", 0x3000, 0x303f, "East Asia"⟩,
  ⟨"Hiragana", 0x3040, 0x309f, "East Asia"⟩,
  ⟨"Katakana", 0x30a0, 0x30ff, "East Asia"⟩,
  ⟨"Bopomofo", 0x3100, 0x312f, "East Asia"⟩,
  ⟨"Hangul Compatibility Jamo", 0x3130, 0x318f, "East Asia"⟩,
  ⟨"Kanbun", 0x3190, 0x319f, "East Asia"⟩,
  ⟨"Bopomofo Extended", 0x31a0, 0x31bf, "East Asia"⟩,
  ⟨"CJK Strokes", 0x31c0, 0x31ef, "East Asia"⟩,
  ⟨"Katakana Phonetic Ext", 0x31f0, 0x31ff, "East Asia"⟩,
  ⟨"Enclosed CJK Letters", 0x3200, 0x32ff, "East Asia"⟩,
  ⟨"CJK Compatibility", 0x3300, 0x33ff, "East Asia"⟩,
  ⟨"CJK Unified Ideographs Ext-A", 0x3400, 0x4dbf, "East Asia"⟩,
  ⟨"Hexagram Symbols", 0x4dc0, 0x4dff, "Symbols"⟩,
  ⟨"CJK Unified Ideographs", 0x4e00, 0x9fff, "East Asia"⟩,
  ⟨"Yi Syllables", 0xa000, 0xa48f, "East Asia"⟩,
  ⟨"Yi Radicals", 0xa490, 0xa4cf, "East Asia"⟩,
  ⟨"Hangul Syllables", 0xac00, 0xd7af, "East Asia"⟩,
  ⟨"Private Use Area", 0xe000, 0xf8ff, "Other"⟩,
  ⟨"CJK Compatibility Ideographs", 0xf900, 0xfaff, "East Asia"⟩
]

/-- Catalog table, part 4 of 4: the list is split into a few
sub-literals only to keep elaboration fast; their concatenation below is the
source table verbatim. -/
def UNICODE_BLOCKS_RAW_3 : List RawBlock := [
  ⟨"Alphabetic Presentation Forms", 0xfb00, 0xfb4f, "Symbols"⟩,
  ⟨"Arabic Presentation Forms-A", 0xfb50, 0xfdff, "Middle East"⟩,
  ⟨"Variation Selectors", 0xfe00, 0xfe0f, "Tech"⟩,
  ⟨"Vertical Forms", 0xfe10, 0xfe1f, "Tech"⟩,
  ⟨"Combining Half Marks", 0xfe20, 0xfe2f, "Symbols"⟩,
  ⟨"CJK Compatibility Forms", 0xfe30, 0xfe4f, "East Asia"⟩,
  ⟨"Small Form Variants", 0xfe50, 0xfe6f, "Symbols"⟩,
  ⟨"Arabic Presentation Forms-B", 0xfe70, 0xfeff, "Middle East"⟩,
  ⟨"Halfwidth and Fullwidth Forms", 0xff00, 0xffef, "East Asia"⟩,
  ⟨"Specials", 0xfff0, 0xffff, "Tech"⟩,
  ⟨"Linear B Syllabary", 0x10000, 0x1007f, "Historic"⟩,
  ⟨"Ancient Greek Numbers", 0x10140, 0x1018f, "Historic"⟩,
  ⟨"Phaistos Disc", 0x101d0, 0x101ff, "Historic"⟩,
  ⟨"Mahjong Tiles", 0x1f000, 0x1f02f, "Game"⟩,
  ⟨"Domino Tiles", 0x1f030, 0x1f09f, "Game"⟩,
  ⟨"Playing Cards", 0x1f0a0, 0x1f0ff, "Game"⟩,
  ⟨"Enclosed Alphanumeric Suppl", 0x1f100, 0x1f1ff, "Symbols"⟩,
  ⟨"Enclosed Ideographic Suppl", 0x1f200, 0x1f2ff, "East Asia"⟩,
  ⟨"Misc Symbols and Pictographs", 0x1f300, 0x1f5ff, "Emoji"⟩,
  ⟨"Emoticons (Emoji)", 0x1f600, 0x1f64f, "Emoji"⟩,
  ⟨"Ornamental Dingbats", 0x1f650, 0x1f67f, "Symbols"⟩,
  ⟨"Transport and Map Symbols", 0x1f680, 0x1f6ff, "Emoji"⟩,
  ⟨"Alchemical Symbols", 0x1f700, 0x1f77f, "Symbols"⟩,
  ⟨"Geometric Shapes Extended", 0x1f780, 0x1f7ff, "Shapes"⟩,
  ⟨"Supplemental Arrows-C", 0x1f800, 0x1f8ff, "Arrows"⟩,
  ⟨"Supplemental Symbols and Pictographs", 0x1f900, 0x1f9ff, "Emoji"⟩,
  ⟨"Chess Symbols", 0x1fa00, 0x1fa6f, "Game"⟩,
  ⟨"Symbols and Pictographs Extended-A", 0x1fa70, 0x1faff, "Emoji"⟩
]

/-- The fixed catalog table (verbatim from the source; both repository copies
are identical). -/
def UNICODE_BLOCKS_RAW : List RawBlock :=
  UNICODE_BLOCKS_RAW_0 ++ UNICODE_BLOCKS_RAW_1 ++ UNICODE_BLOCKS_RAW_2 ++ UNICODE_BLOCKS_RAW_3

/-- `UNICODE_BLOCKS`: the raw table with derived slugs. -/
def UNICODE_BLOCKS : List UnicodeBlock :=
  UNICODE_BLOCKS_RAW.map (fun b => ⟨b.name, b.start, b.stop, b.cat, createSlug b.name⟩)

/-- `findBlockForCodePoint` (= `getBlockByCodePoint`): first block whose
inclusive range contains `cp`. -/
def findBlockForCodePoint (cp : Nat) : Option UnicodeBlock :=
  UNICODE_BLOCKS.find? (fun b => decide (b.start ≤ cp) && decide (cp ≤ b.stop))

/-! ## Hangul syllable naming (build script) -/

def HANGUL_SYLLABLE_BASE : Nat := 0xac00
def HANGUL_LEAD_COUNT : Nat := 19
def HANGUL_VOWEL_COUNT : Nat := 21
def HANGUL_TRAIL_COUNT : Nat := 28
def HANGUL_N_COUNT : Nat := HANGUL_VOWEL_COUNT * HANGUL_TRAIL_COUNT
def HANGUL_S_COUNT : Nat := HANGUL_LEAD_COUNT * HANGUL_N_COUNT

def JAMO_L_TABLE : List String :=
  ["G", "GG", "N", "D", "DD", "R", "M", "B", "BB",
   "S", "SS", "", "J", "JJ", "C", "K", "T", "P", "H"]

def JAMO_V_TABLE : List String :=
  ["A", "AE", "YA", "YAE", "EO", "E", "YEO", "YE", "O",
   "WA", "WAE", "OE", "YO", "U", "WEO", "WE", "WI",
   "YU", "EU", "YI", "I"]

def JAMO_T_TABLE : List String :=
  ["", "G", "GG", "GS", "N", "NJ", "NH", "D", "L", "LG", "LM",
   "LB", "LS", "LT", "LP", "LH", "M", "B", "BS",
   "S", "SS", "NG", "J", "C", "K", "T", "P", "H"]

/-- `getHangulSyllableName`: decompose the offset from `0xAC00` into
lead/vowel/trail indices and concatenate the jamo transliterations.
(JavaScript out-of-range indexing cannot occur under the `isHangulSyllable`
guard; `List.getD` with default `""` models in-range array indexing.) -/
def getHangulSyllableName (cp : Nat) : String :=
  let syllableIndex := cp - HANGUL_SYLLABLE_BASE
  let leadIndex := syllableIndex / HANGUL_N_COUNT
  let vowelIndex := (syllableIndex % HANGUL_N_COUNT) / HANGUL_TRAIL_COUNT
  let trailIndex := syllableIndex % HANGUL_TRAIL_COUNT
  "HANGUL SYLLABLE " ++ JAMO_L_TABLE.getD leadIndex "" ++
    JAMO_V_TABLE.getD vowelIndex "" ++ JAMO_T_TABLE.getD trailIndex ""

/-- `isHangulSyllable`. -/
def isHangulSyllable (cp : Nat) : Bool :=
  decide (HANGUL_SYLLABLE_BASE ≤ cp ∧ cp < HANGUL_SYLLABLE_BASE + HANGUL_S_COUNT)

/-! ## CJK unified ideograph naming (build script) -/

/-- `isCJKUnifiedIdeograph`: the base block and Extensions A–H. -/
def isCJKUnifiedIdeograph (cp : Nat) : Bool :=
  decide ((0x4e00 ≤ cp ∧ cp ≤ 0x9fff) ∨
    (0x3400 ≤ cp ∧ cp ≤ 0x4dbf) ∨
    (0x20000 ≤ cp ∧ cp ≤ 0x2a6df) ∨
    (0x2a700 ≤ cp ∧ cp ≤ 0x2b73f) ∨
    (0x2b740 ≤ cp ∧ cp ≤ 0x2b81f) ∨
    (0x2b820 ≤ cp ∧ cp ≤ 0x2ceaf) ∨
    (0x2ceb0 ≤ cp ∧ cp ≤ 0x2ebef) ∨
    (0x30000 ≤ cp ∧ cp ≤ 0x3134f) ∨
    (0x31350 ≤ cp ∧ cp ≤ 0x323af))

/-- `getCJKUnifiedIdeographName`. -/
def getCJKUnifiedIdeographName (cp : Nat) : String :=
  "CJK UNIFIED IDEOGRAPH-" ++ toUpperHexStr cp

/-! ## The UCD XML parse pass and backfill stages (build script) -/

/-- Per-block name map: a JavaScript object used as a string-keyed dictionary,
modelled as an association list in insertion order. -/
abbrev CharacterData := List (String × String)

/-- `Map<string, CharacterData>` keyed by block slug. -/
abbrev BlockMap := List (String × CharacterData)

/-- One `<char .../>` element of the flat UCD XML, abstracted to the capture
groups of the source regexes: `cp` is the capture of `/\bcp="([0-9A-Fa-f]+)"/`
(`none` when the regex does not match), `na` of `/\bna="([^"]*)"/` and `na1`
of `/\bna1="([^"]*)"/`. -/
structure CharElem where
  cp : Option String
  na : Option String
  na1 : Option String

/-- Association-list lookup (JS `Map.get` / object indexing). -/
def alookup {γ : Type} : List (String × γ) → String → Option γ
  | [], _ => none
  | (k, v) :: rest, s => if k = s then some v else alookup rest s

/-- Association-list update (JS `Map.set` / object assignment): replace the
binding if the key is present, else append. -/
def aset {γ : Type} : List (String × γ) → String → γ → List (String × γ)
  | [], s, v => [(s, v)]
  | (k, w) :: rest, s, v => if k = s then (s, v) :: rest else (k, w) :: aset rest s v

/-- `name.replace(/#/g, repl)`: replace every `#` character. -/
def replaceHashList (repl : List Char) : List Char → List Char
  | [] => []
  | c :: rest =>
    if c = '#' then repl ++ replaceHashList repl rest else c :: replaceHashList repl rest

/-- Lines 311–314 of the build script: if the name contains `#`, replace every
occurrence with `cpMatch[1].toUpperCase()` — the raw `cp` attribute string,
uppercased (not the unpadded hex of the numeric code point). -/
def substHash (name cpAttr : String) : String :=
  if name.data.contains '#' then
    String.mk (replaceHashList (cpAttr.data.map toUpperChar) name.data)
  else name

/-- Name extraction for one character element (build script lines 303–330):
`na` when present and non-empty (JS truthiness), with `#` substitution;
else `na1` when present and non-empty; else the Hangul/CJK algorithmic
derivations; `""` means "no name" (the element is skipped). -/
def extractCharName (cpStr : String) (cp : Nat) (na na1 : Option String) : String :=
  let fromNa1 : String :=
    match na1 with
    | some t => if t ≠ "" then t else ""
    | none => ""
  let name :=
    match na with
    | some s => if s ≠ "" then substHash s cpStr else fromNa1
    | none => fromNa1
  if name = "" then
    if isHangulSyllable cp then getHangulSyllableName cp
    else if isCJKUnifiedIdeograph cp then getCJKUnifiedIdeographName cp
    else ""
  else name

/-- `blockDataMap` initialisation: one empty per-block object per catalog slug. -/
def initBlockMap : BlockMap := UNICODE_BLOCKS.map (fun b => (b.slug, []))

/-- `blockData[cpMatch[1].toUpperCase()] = name` guarded by
`blockDataMap.get(block.slug)` being defined. -/
def setBlockEntry (m : BlockMap) (slug key name : String) : BlockMap :=
  match alookup m slug with
  | none => m
  | some data => aset m slug (aset data key name)

/-- Body of the `while` loop over `<char>` matches. A `cp` attribute whose
`parseInt` is `NaN` or negative cannot reach a catalog block
(`findBlockForCodePoint` is over `Nat` and all guards fail on it), so those
cases leave the map unchanged, exactly as in the source. -/
def parseUCDStep (m : BlockMap) (e : CharElem) : BlockMap :=
  match e.cp with
  | none => m
  | some cpStr =>
    match jsParseIntHex cpStr.data with
    | none => m
    | some (Int.negSucc _) => m
    | some (Int.ofNat cp) =>
      let name := extractCharName cpStr cp e.na e.na1
      if name = "" then m
      else
        match findBlockForCodePoint cp with
        | none => m
        | some b => setBlockEntry m b.slug (toUpperStr cpStr) name

/-- `parseUCDXml`, abstracted over the list of `<char>` regex matches. -/
def parseUCDXml (elems : List CharElem) : BlockMap :=
  elems.foldl parseUCDStep initBlockMap

/-- One iteration of a backfill loop: `if (!data[hex]) data[hex] = gen(cp)`
(JS truthiness: insert when the key is absent or maps to `""`). -/
def backfillStep (guard : Nat → Bool) (gen : Nat → String)
    (acc : CharacterData) (cp : Nat) : CharacterData :=
  if guard cp then
    if (alookup acc (toUpperHexStr cp)).getD "" = "" then
      aset acc (toUpperHexStr cp) (gen cp)
    else acc
  else acc

/-- A backfill loop `for (let cp = lo; cp <= hi; cp++)`. -/
def backfillRange (d : CharacterData) (lo hi : Nat)
    (guard : Nat → Bool) (gen : Nat → String) : CharacterData :=
  (List.range' lo (hi + 1 - lo)).foldl (backfillStep guard gen) d

/-- `pat` occurs as a contiguous substring of the second list
(JS `String.prototype.includes`). -/
def containsSubList (pat : List Char) : List Char → Bool
  | [] => pat.isEmpty
  | c :: rest => pat.isPrefixOf (c :: rest) || containsSubList pat rest

/-- One iteration of the CJK backfill loop: blocks whose name contains
`"CJK Unified Ideograph"` get every still-missing algorithmic name in their
range. -/
def cjkBackfillStep (acc : BlockMap) (b : UnicodeBlock) : BlockMap :=
  if containsSubList ("CJK Unified Ideograph".data) b.name.data then
    aset acc b.slug
      (backfillRange ((alookup acc b.slug).getD []) b.start b.stop
        isCJKUnifiedIdeograph getCJKUnifiedIdeographName)
  else acc

/-- `generateAlgorithmicNames`: the Hangul backfill stage over the
`hangul-syllables` block, then the CJK backfill stage over every block whose
name contains `"CJK Unified Ideograph"`. -/
def generateAlgorithmicNames (m : BlockMap) : BlockMap :=
  let m1 :=
    match UNICODE_BLOCKS.find? (fun b => decide (b.slug = "hangul-syllables")) with
    | none => m
    | some hb =>
      aset m hb.slug
        (backfillRange ((alookup m hb.slug).getD []) hb.start hb.stop
          isHangulSyllable getHangulSyllableName)
  UNICODE_BLOCKS.foldl cjkBackfillStep m1

/-- `cp` attribute strings as guaranteed by the capture regex
`/\bcp="([0-9A-Fa-f]+)"/`: non-empty, hexadecimal digits only. -/
def isHexAttr (s : String) : Bool :=
  !s.data.isEmpty && s.data.all isHexDigitChar

/-- The key `key`, parsed as hexadecimal, denotes a code point inside block
`b`'s inclusive range. -/
def keyInRangeOf (b : UnicodeBlock) (key : String) : Prop :=
  ∃ n : Nat, jsParseIntHex key.data = some (Int.ofNat n) ∧ b.start ≤ n ∧ n ≤ b.stop

/-- Every key of every per-block map lies (parsed as hex) within the owning
block's range. -/
def blockMapWellFormed (m : BlockMap) : Prop :=
  ∀ slug data, (slug, data) ∈ m → ∀ key name, (key, name) ∈ data →
    ∀ b ∈ UNICODE_BLOCKS, b.slug = slug → keyInRangeOf b key

/-- All `cp` capture groups in a list of character elements are well-formed
hexadecimal attribute values (what the capture regex guarantees). -/
def elemsHexOk (elems : List CharElem) : Prop :=
  ∀ e ∈ elems, ∀ s, e.cp = some s → isHexAttr s = true

/-! ## Request-time per-block name loading (`unicode-names.server.ts` and its
variant copy) -/

/-- `CharacterNames`: hex code point string → name. -/
abbrev CharacterNames := List (String × String)

/-- The loader's externals: `existsSync` on `<dir>/<slug>.json`, and
`JSON.parse(readFileSync(...))` (`none` models a thrown exception). -/
structure NamesFs where
  fileExists : String → Bool
  readJson : String → Option CharacterNames

/-- `loadBlockNames`, with the module-level `namesCache` passed explicitly:
return the cached map if present; otherwise an empty map (cached) when the
file is missing, the parsed map (cached) on success, and an empty map
(cached) when reading/parsing throws. -/
def loadBlockNames (fs : NamesFs) (cache : List (String × CharacterNames))
    (blockSlug : String) : CharacterNames × List (String × CharacterNames) :=
  match alookup cache blockSlug with
  | some cached => (cached, cache)
  | none =>
    if fs.fileExists blockSlug then
      match fs.readJson blockSlug with
      | some data => (data, aset cache blockSlug data)
      | none => ([], aset cache blockSlug [])
    else ([], aset cache blockSlug [])

/-- `getCharacterName` from `src/app/data/unicode-names.server.ts`: looks up
`charCode.toString(16).toUpperCase()` — no zero padding. -/
def getCharacterNameUnpadded (names : CharacterNames) (charCode : Nat) : Option String :=
  alookup names (toUpperHexStr charCode)

/-- `getCharacterName` from the variant copy of the module: looks up
`charCode.toString(16).toUpperCase().padStart(4, "0")`. -/
def getCharacterNamePadded (names : CharacterNames) (charCode : Nat) : Option String :=
  alookup names (padStart4 (toUpperHexStr charCode))

/-- Value of the longest leading run of hexadecimal digits of `l` (what claim
C10 asserts both parsers compute after prefix stripping). -/
def longestHexRunVal (l : List Char) : Nat :=
  hexListVal (l.takeWhile isHexDigitChar)

/-- Does `l` begin with a (second) `0x`/`0X` prefix, as consumed by
radix-16 `parseInt`? -/
def hexMark0xAt (l : List Char) : Bool :=
  match l with
  | c0 :: c1 :: _ => decide (c0 = '0' ∧ (c1 = 'x' ∨ c1 = 'X'))
  | _ => false


/-! # Lemmas and claim theorems -/

/-! ## `toUpperCase` commutes with everything `parseInt` inspects -/

theorem toNat_ofNat_valid (n : Nat) (h : n < 55296) : (Char.ofNat n).toNat = n := by
  have hv : n.isValidChar := Or.inl h
  simp only [Char.ofNat, hv, dite_true, dif_pos]
  rfl

theorem toNat_toUpperChar (c : Char) :
    (toUpperChar c).toNat = if 97 ≤ c.toNat ∧ c.toNat ≤ 122 then c.toNat - 32 else c.toNat := by
  unfold toUpperChar
  split_ifs with h
  · exact toNat_ofNat_valid _ (by omega)
  · rfl

theorem char_eq_iff (c d : Char) : c = d ↔ c.toNat = d.toNat :=
  ⟨fun h => by rw [h], fun h => Char.ofNat_toNat c ▸ Char.ofNat_toNat d ▸ congrArg Char.ofNat h⟩

theorem isJsWhitespace_toUpperChar (c : Char) :
    isJsWhitespace (toUpperChar c) = isJsWhitespace c := by
  unfold isJsWhitespace
  rw [decide_eq_decide, toNat_toUpperChar]
  split_ifs with h <;> omega

theorem isHexDigitChar_toUpperChar (c : Char) :
    isHexDigitChar (toUpperChar c) = isHexDigitChar c := by
  unfold isHexDigitChar
  rw [decide_eq_decide, toNat_toUpperChar]
  split_ifs with h <;> omega

theorem hexDigitVal_toUpperChar (c : Char) :
    hexDigitVal (toUpperChar c) = hexDigitVal c := by
  unfold hexDigitVal
  rw [toNat_toUpperChar]
  split_ifs <;> omega

theorem toUpperChar_eq_dash (c : Char) : toUpperChar c = '-' ↔ c = '-' := by
  rw [char_eq_iff, char_eq_iff, toNat_toUpperChar]
  have h45 : ('-' : Char).toNat = 45 := rfl
  rw [h45]
  split_ifs <;> omega

theorem toUpperChar_eq_plus (c : Char) : toUpperChar c = '+' ↔ c = '+' := by
  rw [char_eq_iff, char_eq_iff, toNat_toUpperChar]
  have h43 : ('+' : Char).toNat = 43 := rfl
  rw [h43]
  split_ifs <;> omega

theorem toUpperChar_eq_zero (c : Char) : toUpperChar c = '0' ↔ c = '0' := by
  rw [char_eq_iff, char_eq_iff, toNat_toUpperChar]
  have h48 : ('0' : Char).toNat = 48 := rfl
  rw [h48]
  split_ifs <;> omega

theorem toUpperChar_eq_xX (c : Char) :
    toUpperChar c = 'x' ∨ toUpperChar c = 'X' ↔ c = 'x' ∨ c = 'X' := by
  rw [char_eq_iff (toUpperChar c) 'x', char_eq_iff (toUpperChar c) 'X',
    char_eq_iff c 'x', char_eq_iff c 'X', toNat_toUpperChar]
  have h120 : ('x' : Char).toNat = 120 := rfl
  have h88 : ('X' : Char).toNat = 88 := rfl
  rw [h120, h88]
  split_ifs <;> omega

theorem jsSignSplit_map (l : List Char) :
    jsSignSplit (l.map toUpperChar) =
      ((jsSignSplit l).1, (jsSignSplit l).2.map toUpperChar) := by
  cases l with
  | nil => rfl
  | cons c r =>
    simp only [List.map_cons, jsSignSplit]
    by_cases h1 : c = '-'
    · subst h1
      have hu : toUpperChar '-' = '-' := by decide
      rw [hu]
      simp
    · have h1u : ¬ toUpperChar c = '-' := fun h => h1 ((toUpperChar_eq_dash c).mp h)
      rw [if_neg h1u, if_neg h1]
      by_cases h2 : c = '+'
      · subst h2
        have hu : toUpperChar '+' = '+' := by decide
        rw [hu]
        simp
      · have h2u : ¬ toUpperChar c = '+' := fun h => h2 ((toUpperChar_eq_plus c).mp h)
        rw [if_neg h2u, if_neg h2]
        simp

theorem jsStrip0x_map (l : List Char) :
    jsStrip0x (l.map toUpperChar) = (jsStrip0x l).map toUpperChar := by
  match l with
  | [] => rfl
  | [c] => rfl
  | c0 :: c1 :: r =>
    simp only [List.map_cons, jsStrip0x]
    by_cases h : c0 = '0' ∧ (c1 = 'x' ∨ c1 = 'X')
    · have hu : toUpperChar c0 = '0' ∧ (toUpperChar c1 = 'x' ∨ toUpperChar c1 = 'X') :=
        ⟨(toUpperChar_eq_zero c0).mpr h.1, (toUpperChar_eq_xX c1).mpr h.2⟩
      rw [if_pos hu, if_pos h]
    · have hu : ¬ (toUpperChar c0 = '0' ∧ (toUpperChar c1 = 'x' ∨ toUpperChar c1 = 'X')) :=
        fun hc => h ⟨(toUpperChar_eq_zero c0).mp hc.1, (toUpperChar_eq_xX c1).mp hc.2⟩
      rw [if_neg hu, if_neg h, List.map_cons, List.map_cons]

theorem hexListVal_go_map_toUpper (l : List Char) (a : Nat) :
    (l.map toUpperChar).foldl (fun a c => a * 16 + hexDigitVal c) a =
      l.foldl (fun a c => a * 16 + hexDigitVal c) a := by
  induction l generalizing a with
  | nil => rfl
  | cons c r ih => simp only [List.map_cons, List.foldl_cons, hexDigitVal_toUpperChar, ih]

theorem hexListVal_map_toUpper (l : List Char) :
    hexListVal (l.map toUpperChar) = hexListVal l :=
  hexListVal_go_map_toUpper l 0

theorem isEmpty_map_toUpper (l : List Char) :
    (l.map toUpperChar).isEmpty = l.isEmpty := by
  cases l <;> rfl

theorem jsParseIntHex_map_toUpper (l : List Char) :
    jsParseIntHex (l.map toUpperChar) = jsParseIntHex l := by
  have hws : (isJsWhitespace ∘ toUpperChar) = isJsWhitespace :=
    funext isJsWhitespace_toUpperChar
  have hhx : (isHexDigitChar ∘ toUpperChar) = isHexDigitChar :=
    funext isHexDigitChar_toUpperChar
  simp only [jsParseIntHex, List.dropWhile_map, hws, jsSignSplit_map, jsStrip0x_map,
    List.takeWhile_map, hhx, isEmpty_map_toUpper, hexListVal_map_toUpper]

/-! ## Claim C7: catalog range invariants -/

/-- C7: every block of the fixed catalog satisfies `start ≤ end` with both
bounds within `[0, 0x10FFFF]` (the lower bounds are `Nat`s, hence `≥ 0`), and
the ranges of any two distinct blocks are disjoint. -/
theorem claim_C7 :
    (∀ b ∈ UNICODE_BLOCKS, b.start ≤ b.stop ∧ b.stop ≤ 0x10ffff) ∧
    (∀ b ∈ UNICODE_BLOCKS, ∀ c ∈ UNICODE_BLOCKS, b ≠ c →
      b.stop < c.start ∨ c.stop < b.start) := by
  constructor
  · decide
  · have hp : List.Pairwise
        (fun a b : UnicodeBlock => a.stop < b.start ∨ b.stop < a.start) UNICODE_BLOCKS := by
      decide
    exact fun b hb c hc hbc => (hp.forall (fun x y h => Or.symm h)) hb hc hbc

/-- C7 witness: the first two catalog blocks instantiate both parts. -/
theorem claim_C7_witness :
    ((0 : Nat) ≤ 0x7f ∧ (0x7f : Nat) ≤ 0x10ffff) ∧
      ((0x7f : Nat) < 0x80 ∨ (0xff : Nat) < 0) :=
  ⟨claim_C7.1 ⟨"Basic Latin (ASCII)", 0, 0x7f, "Latin", "basic-latin-ascii"⟩ (by decide),
   claim_C7.2 ⟨"Basic Latin (ASCII)", 0, 0x7f, "Latin", "basic-latin-ascii"⟩ (by decide)
     ⟨"Latin-1 Supplement", 0x80, 0xff, "Latin", "latin-1-supplement"⟩ (by decide) (by decide)⟩

/-! ## Claim C3: Hangul syllable name derivation -/

/-- C3: for every code point in `[0xAC00, 0xD7A3]` the derived Hangul name is
`"HANGUL SYLLABLE "` followed by the lead/vowel/trail jamo transliterations at
indices `(cp-0xAC00)/588`, `((cp-0xAC00)%588)/28`, `(cp-0xAC00)%28`; the three
indices are within the 19/21/28 tables, trail index 0 maps to the empty
string, and the endpoints give `"HANGUL SYLLABLE GA"` / `"HANGUL SYLLABLE HIH"`. -/
theorem claim_C3 : ∀ cp : Nat, 0xac00 ≤ cp → cp ≤ 0xd7a3 →
    (getHangulSyllableName cp =
        "HANGUL SYLLABLE " ++ JAMO_L_TABLE.getD ((cp - 0xac00) / 588) "" ++
          JAMO_V_TABLE.getD (((cp - 0xac00) % 588) / 28) "" ++
          JAMO_T_TABLE.getD ((cp - 0xac00) % 28) "" ∧
      (cp - 0xac00) / 588 < 19 ∧ ((cp - 0xac00) % 588) / 28 < 21 ∧
        (cp - 0xac00) % 28 < 28) ∧
    JAMO_T_TABLE.getD 0 "" = "" ∧
    getHangulSyllableName 0xac00 = "HANGUL SYLLABLE GA" ∧
    getHangulSyllableName 0xd7a3 = "HANGUL SYLLABLE HIH" := by
  intro cp h1 h2
  refine ⟨⟨rfl, by omega, by omega, by omega⟩, by decide, by decide, by decide⟩

/-- C3 witness at `cp = 0xAC00`. -/
theorem claim_C3_witness :
    getHangulSyllableName 0xac00 =
      "HANGUL SYLLABLE " ++ JAMO_L_TABLE.getD ((0xac00 - 0xac00) / 588) "" ++
        JAMO_V_TABLE.getD (((0xac00 - 0xac00) % 588) / 28) "" ++
        JAMO_T_TABLE.getD ((0xac00 - 0xac00) % 28) "" :=
  (claim_C3 0xac00 (by decide) (by decide)).1.1

/-! ## Claim C4: CJK unified ideograph name derivation -/

/-- C4: `isCJKUnifiedIdeograph` holds exactly on the nine documented CJK
Unified Ideograph ranges (base block and Extensions A–H), and on those ranges
the derived name is `"CJK UNIFIED IDEOGRAPH-"` followed by the uppercase,
unpadded hex digits of the code point; in particular `0x4E2D` yields
`"CJK UNIFIED IDEOGRAPH-4E2D"`. -/
theorem claim_C4 :
    (∀ cp : Nat, isCJKUnifiedIdeograph cp = true ↔
      ((0x4e00 ≤ cp ∧ cp ≤ 0x9fff) ∨
       (0x3400 ≤ cp ∧ cp ≤ 0x4dbf) ∨
       (0x20000 ≤ cp ∧ cp ≤ 0x2a6df) ∨
       (0x2a700 ≤ cp ∧ cp ≤ 0x2b73f) ∨
       (0x2b740 ≤ cp ∧ cp ≤ 0x2b81f) ∨
       (0x2b820 ≤ cp ∧ cp ≤ 0x2ceaf) ∨
       (0x2ceb0 ≤ cp ∧ cp ≤ 0x2ebef) ∨
       (0x30000 ≤ cp ∧ cp ≤ 0x3134f) ∨
       (0x31350 ≤ cp ∧ cp ≤ 0x323af))) ∧
    (∀ cp : Nat, isCJKUnifiedIdeograph cp = true →
      getCJKUnifiedIdeographName cp = "CJK UNIFIED IDEOGRAPH-" ++ toUpperHexStr cp) ∧
    getCJKUnifiedIdeographName 0x4e2d = "CJK UNIFIED IDEOGRAPH-4E2D" := by
  refine ⟨fun cp => ?_, fun cp _ => rfl, by decide⟩
  simp only [isCJKUnifiedIdeograph, decide_eq_true_eq]

/-- C4 witness at `cp = 0x4E2D` (inside the base block). -/
theorem claim_C4_witness :
    getCJKUnifiedIdeographName 0x4e2d = "CJK UNIFIED IDEOGRAPH-" ++ toUpperHexStr 0x4e2d :=
  claim_C4.2.1 0x4e2d (by decide)

/-! ## Claim C1: `parseHexSearch` vs `parseCodePoint` -/

/-- C1 counterexample: the two parsers differ on `"10x1"`. `parseCodePoint`
strips only a leading `U+`/`0x`, so it parses `10` (stopping at `x`) and
returns 16; `parseHexSearch`'s unanchored `replace(/U\+|0x/i, "")` removes the
`0x` in the middle, parses `11`, and returns 17. -/
theorem claim_C1_counterexample :
    parseHexSearch "10x1" = some 17 ∧ parseCodePoint "10x1" = some 16 ∧
      parseHexSearch "10x1" ≠ parseCodePoint "10x1" := by decide

theorem stripFirstHexMark_id (l : List Char)
    (h : ∀ i : Nat, hexMarkAt (l.drop i) = false) : stripFirstHexMark l = l := by
  induction l with
  | nil => rfl
  | cons c rest ih =>
    have h0 : hexMarkAt (c :: rest) = false := by simpa using h 0
    unfold stripFirstHexMark
    rw [if_neg (by simp [h0])]
    have ih' : stripFirstHexMark rest = rest := by
      refine ih (fun i => ?_)
      simpa using h (i + 1)
    rw [ih']

/-- C1 (amended): the two parsers are not extensionally equal; they diverge
in two ways. `parseCodePoint` strips only a leading mark while
`parseHexSearch` removes the first occurrence of `U+`/`0x` anywhere (the
`"10x1"` counterexample), and `parseHexSearch` additionally uppercases the
stripped string, where ECMA-262 `toUpperCase`'s Unicode full case mappings
can create hex digits from non-ASCII input (on the one-character string
U+FB01 the real `parseHexSearch` parses `FI` as 15 while `parseCodePoint`
returns null). On ASCII input — where the embedding's ASCII uppercase model
coincides with `toUpperCase`, hence the first hypothesis; the model itself
never needs it — the two agree (same parse, same `[0, 0x10FFFF]` bound, same
result) on every string in which the first mark occurrence, if any, is at
position 0. -/
theorem claim_C1_amended (s : String)
    (_hascii : ∀ c ∈ s.data, c.toNat < 128)
    (h : hexMarkAt s.data = true ∨ ∀ i : Nat, hexMarkAt (s.data.drop i) = false) :
    parseHexSearch s = parseCodePoint s := by
  unfold parseHexSearch parseCodePoint
  rw [jsParseIntHex_map_toUpper]
  have hsf : stripFirstHexMark s.data = stripLeadingHexMark s.data := by
    rcases h with h | h
    · unfold stripLeadingHexMark
      rw [if_pos h]
      rcases hd : s.data with _ | ⟨c, rest⟩
      · rw [hd] at h; exact absurd h (by decide)
      · rw [hd] at h
        unfold stripFirstHexMark
        rw [if_pos h]
        rfl
    · have h0 : hexMarkAt s.data = false := by simpa using h 0
      rw [stripFirstHexMark_id s.data h]
      unfold stripLeadingHexMark
      rw [if_neg (by simp [h0])]
  rw [hsf]

/-- C1 witness: both parsers agree on the ASCII string `"U+0041"` (mark at
position 0). -/
theorem claim_C1_witness : parseHexSearch "U+0041" = parseCodePoint "U+0041" :=
  claim_C1_amended "U+0041" (by decide) (Or.inl (by decide))

/-! ## Claim C10: trailing garbage tolerance of both parsers -/

/-- C10 counterexample: on `"0x0x41"` the remainder after prefix stripping is
`"0x41"`, which begins with the hexadecimal digit `0` and whose longest leading
digit run is just `"0"` (value 0) — yet both parsers return `0x41 = 65`,
because `parseInt(·, 16)` strips a second `0x` prefix itself. -/
theorem claim_C10_counterexample :
    stripLeadingHexMark ("0x0x41".data) = "0x41".data ∧
      isHexDigitChar '0' = true ∧
      longestHexRunVal ("0x41".data) = 0 ∧
      parseCodePoint "0x0x41" = some 65 ∧
      parseCodePoint "0x0x41" ≠ some (longestHexRunVal ("0x41".data)) ∧
      parseHexSearch "0x0x41" = some 65 := by decide

theorem jsParseIntHex_of_hexHead (c : Char) (rest : List Char)
    (hc : isHexDigitChar c = true) (h0x : hexMark0xAt (c :: rest) = false) :
    jsParseIntHex (c :: rest) = some (Int.ofNat (longestHexRunVal (c :: rest))) := by
  have hws : isJsWhitespace c = false := by
    simp only [isHexDigitChar, decide_eq_true_eq] at hc
    simp only [isJsWhitespace, decide_eq_false_iff_not]
    omega
  have hdash : ¬ c = '-' := by
    intro h; rw [h] at hc; exact absurd hc (by decide)
  have hplus : ¬ c = '+' := by
    intro h; rw [h] at hc; exact absurd hc (by decide)
  have h1 : (c :: rest).dropWhile isJsWhitespace = c :: rest := by
    simp [List.dropWhile_cons, hws]
  have h2 : jsSignSplit (c :: rest) = (1, c :: rest) := by
    simp [jsSignSplit, hdash, hplus]
  have h3 : jsStrip0x (c :: rest) = c :: rest := by
    cases rest with
    | nil => rfl
    | cons c1 r =>
      simp only [jsStrip0x]
      rw [if_neg]
      simp only [hexMark0xAt, decide_eq_false_iff_not] at h0x
      exact h0x
  have h4 : (c :: rest).takeWhile isHexDigitChar = c :: rest.takeWhile isHexDigitChar := by
    simp [List.takeWhile_cons, hc]
  simp only [jsParseIntHex, h1, h2, h3, h4, longestHexRunVal, List.isEmpty_cons,
    Bool.false_eq_true, if_false, one_mul]

/-- C10 (amended): neither parser rejects trailing non-hex characters — when
the remainder after prefix stripping starts with a hex digit *and does not
itself start with a second `0x`/`0X` prefix* (which radix-16 `parseInt` would
strip, as on `"0x0x41"`), the result is the value of the longest leading run
of hexadecimal digits, bounded by `0x10FFFF`; e.g. `parseCodePoint "41zz"`
returns the same `0x41` as `parseCodePoint "41"`. For `parseCodePoint` this
holds for arbitrary input; for `parseHexSearch`, which uppercases before
parsing, it holds for ASCII input (the first hypothesis of the second
clause, unused inside the model) — on non-ASCII input `toUpperCase`'s
Unicode full case mappings can extend the digit run, e.g. `"41"` followed by
U+FB01 uppercases to `"41FI"` and the real `parseHexSearch` returns `0x41F`,
not `0x41`. -/
theorem claim_C10_amended :
    (∀ (s : String) (c : Char) (rest : List Char),
        stripLeadingHexMark s.data = c :: rest → isHexDigitChar c = true →
        hexMark0xAt (c :: rest) = false →
        parseCodePoint s =
          (if longestHexRunVal (c :: rest) ≤ 0x10ffff
           then some (longestHexRunVal (c :: rest)) else none)) ∧
    (∀ (s : String) (c : Char) (rest : List Char),
        (∀ ch ∈ s.data, ch.toNat < 128) →
        stripFirstHexMark s.data = c :: rest → isHexDigitChar c = true →
        hexMark0xAt (c :: rest) = false →
        parseHexSearch s =
          (if longestHexRunVal (c :: rest) ≤ 0x10ffff
           then some (longestHexRunVal (c :: rest)) else none)) ∧
    parseCodePoint "41zz" = some 0x41 ∧ parseCodePoint "41" = some 0x41 ∧
      parseHexSearch "41zz" = some 0x41 := by
  have main : ∀ (c : Char) (rest : List Char), isHexDigitChar c = true →
      hexMark0xAt (c :: rest) = false →
      (match jsParseIntHex (c :: rest) with
       | none => none
       | some v => if 0 ≤ v ∧ v ≤ 0x10ffff then some v.toNat else none) =
        (if longestHexRunVal (c :: rest) ≤ 0x10ffff
         then some (longestHexRunVal (c :: rest)) else none) := by
    intro c rest hc h0x
    rw [jsParseIntHex_of_hexHead c rest hc h0x]
    by_cases hb : longestHexRunVal (c :: rest) ≤ 0x10ffff
    · rw [if_pos hb]
      simp only [Int.ofNat_eq_coe]
      rw [if_pos ⟨Int.natCast_nonneg _, by exact_mod_cast hb⟩, Int.toNat_natCast]
    · rw [if_neg hb]
      simp only [Int.ofNat_eq_coe]
      rw [if_neg]
      intro hcon
      exact hb (by exact_mod_cast hcon.2)
  refine ⟨fun s c rest hstrip hc h0x => ?_, fun s c rest _hascii hstrip hc h0x => ?_,
    by decide, by decide, by decide⟩
  · unfold parseCodePoint
    rw [hstrip]
    exact main c rest hc h0x
  · unfold parseHexSearch
    rw [hstrip, jsParseIntHex_map_toUpper]
    exact main c rest hc h0x

/-- C10 witness: the amended statement applied at `"41zz"`. -/
theorem claim_C10_witness :
    parseCodePoint "41zz" =
      (if longestHexRunVal ('4' :: "1zz".data) ≤ 0x10ffff
       then some (longestHexRunVal ('4' :: "1zz".data)) else none) :=
  claim_C10_amended.1 "41zz" '4' ("1zz".data) (by decide) (by decide) (by decide)

/-! ## Claims C2 and C5: name extraction in the UCD parse pass -/

theorem data_ne_nil_of_ne_empty (s : String) (h : s ≠ "") : s.data ≠ [] := by
  intro hd
  apply h
  cases s
  simp_all

theorem mk_ne_empty_of_ne_nil (l : List Char) (h : l ≠ []) : String.mk l ≠ "" := by
  intro he
  have := congrArg String.data he
  simp at this
  exact h this

theorem replaceHashList_ne_nil (repl l : List Char) (hrepl : repl ≠ []) (hl : l ≠ []) :
    replaceHashList repl l ≠ [] := by
  cases l with
  | nil => exact absurd rfl hl
  | cons c rest =>
    unfold replaceHashList
    split_ifs with h
    · exact List.append_ne_nil_of_left_ne_nil hrepl _
    · simp

theorem substHash_ne_empty (na cpStr : String) (hna : na ≠ "") (hcp : cpStr ≠ "") :
    substHash na cpStr ≠ "" := by
  unfold substHash
  split_ifs with h
  · exact mk_ne_empty_of_ne_nil _
      (replaceHashList_ne_nil _ _
        (by simpa using data_ne_nil_of_ne_empty cpStr hcp)
        (data_ne_nil_of_ne_empty na hna))
  · exact hna

/-- C2 counterexample: at cp attribute `"0041"` the source replaces `#` with
the uppercased attribute string `"0041"`, not with the unpadded hex `"41"`
the claim demands. -/
theorem claim_C2_counterexample :
    extractCharName "0041" 0x41 (some "X#Y") none = "X0041Y" ∧
      ("X0041Y" : String) ≠ "X41Y" := by decide

/-- C2 (amended): when the extracted `na` name contains `#`, every occurrence
of `#` in the stored name is replaced by the *uppercased raw cp attribute
string* (zero-padded exactly as written in the XML), not by the unpadded hex
digits of the code point; cp attribute `"0041"` substitutes `"0041"`. -/
theorem claim_C2_amended :
    (∀ (cpStr : String) (cp : Nat) (na : String) (na1 : Option String),
        cpStr ≠ "" → na ≠ "" → na.data.contains '#' = true →
        extractCharName cpStr cp (some na) na1 =
          String.mk (replaceHashList (cpStr.data.map toUpperChar) na.data)) ∧
    extractCharName "0041" 0x41 (some "CJK IDEOGRAPH-#") none = "CJK IDEOGRAPH-0041" := by
  constructor
  · intro cpStr cp na na1 hcp hna hhash
    have hsub : substHash na cpStr =
        String.mk (replaceHashList (cpStr.data.map toUpperChar) na.data) := by
      unfold substHash
      rw [if_pos hhash]
    simp only [extractCharName]
    rw [if_pos hna, hsub, if_neg (hsub ▸ substHash_ne_empty na cpStr hna hcp)]
  · decide

/-- C2 witness: the amended statement applied at cp attribute `"0A"`. -/
theorem claim_C2_witness :
    extractCharName "0A" 10 (some "#1") none =
      String.mk (replaceHashList ("0A".data.map toUpperChar) "#1".data) :=
  claim_C2_amended.1 "0A" 10 "#1" none (by decide) (by decide) (by decide)

/-- C5 counterexample: with `na` *present but empty* and a non-empty `na1`,
the code falls back to `na1` and stores the character — the claimed
precedence ("`na1` only when `na` is absent", then drop) would have dropped
it. -/
theorem claim_C5_counterexample :
    extractCharName "0041" 0x41 (some "") (some "LEGACY NAME") = "LEGACY NAME" ∧
      alookup (parseUCDStep initBlockMap ⟨some "0041", some "", some "LEGACY NAME"⟩)
          "basic-latin-ascii" = some [("0041", "LEGACY NAME")] := by decide

/-- C5 (amended): the name-extraction precedence is: `na` when present *and
non-empty* (with `#` substitution); else `na1` when present *and non-empty*
(an empty `na` is treated exactly like an absent one); else the algorithmic
derivations, Hangul before CJK; a character whose extracted name is empty is
dropped — the parse step leaves every block map unchanged. -/
theorem claim_C5_amended :
    (∀ (cpStr : String) (cp : Nat) (na : String) (na1 : Option String),
        cpStr ≠ "" → na ≠ "" →
        extractCharName cpStr cp (some na) na1 = substHash na cpStr) ∧
    (∀ (cpStr : String) (cp : Nat) (na : Option String) (t : String),
        (na = none ∨ na = some "") → t ≠ "" →
        extractCharName cpStr cp na (some t) = t) ∧
    (∀ (cpStr : String) (cp : Nat) (na na1 : Option String),
        (na = none ∨ na = some "") → (na1 = none ∨ na1 = some "") →
        extractCharName cpStr cp na na1 =
          (if isHangulSyllable cp then getHangulSyllableName cp
           else if isCJKUnifiedIdeograph cp then getCJKUnifiedIdeographName cp
           else "")) ∧
    (∀ (m : BlockMap) (e : CharElem) (cpStr : String) (cp : Nat),
        e.cp = some cpStr → jsParseIntHex cpStr.data = some (Int.ofNat cp) →
        extractCharName cpStr cp e.na e.na1 = "" →
        parseUCDStep m e = m) := by
  refine ⟨?_, ?_, ?_, ?_⟩
  · intro cpStr cp na na1 hcp hna
    simp only [extractCharName]
    rw [if_pos hna, if_neg (substHash_ne_empty na cpStr hna hcp)]
  · intro cpStr cp na t hna ht
    rcases hna with h | h <;> subst h <;> simp only [extractCharName]
    · rw [if_pos ht, if_neg ht]
    · rw [if_neg (fun h : ("" : String) ≠ "" => h rfl), if_pos ht, if_neg ht]
  · intro cpStr cp na na1 h1 h2
    rcases h1 with h | h <;> rcases h2 with h' | h' <;> subst_vars <;>
      simp [extractCharName]
  · intro m e cpStr cp hcp hparse hname
    simp only [parseUCDStep, hcp, hparse, hname]
    simp

/-- C5 witness: the first amended clause applied at a concrete element. -/
theorem claim_C5_witness :
    extractCharName "0042" 0x42 (some "NAME B") none = substHash "NAME B" "0042" :=
  claim_C5_amended.1 "0042" 0x42 "NAME B" none (by decide) (by decide)

/-! ## Association-list lemmas -/

theorem alookup_aset_self {γ : Type} (d : List (String × γ)) (k : String) (v : γ) :
    alookup (aset d k v) k = some v := by
  induction d with
  | nil => simp [aset, alookup]
  | cons p rest ih =>
    obtain ⟨q, w⟩ := p
    unfold aset
    split_ifs with h
    · simp [alookup]
    · simpa [alookup, h] using ih

theorem alookup_eq_none {γ : Type} (d : List (String × γ)) (k : String)
    (h : ∀ p ∈ d, p.1 ≠ k) : alookup d k = none := by
  induction d with
  | nil => rfl
  | cons p rest ih =>
    obtain ⟨q, w⟩ := p
    unfold alookup
    rw [if_neg (h (q, w) (List.mem_cons_self _ _))]
    exact ih (fun p hp => h p (List.mem_cons_of_mem _ hp))

theorem alookup_mem {γ : Type} (d : List (String × γ)) (k : String) (v : γ)
    (h : alookup d k = some v) : (k, v) ∈ d := by
  induction d with
  | nil => exact absurd h (by simp [alookup])
  | cons p rest ih =>
    obtain ⟨q, w⟩ := p
    unfold alookup at h
    split_ifs at h with hq
    · obtain ⟨rfl⟩ := h
      subst hq
      exact List.mem_cons_self _ _
    · exact List.mem_cons_of_mem _ (ih h)

theorem aset_mem {γ : Type} (d : List (String × γ)) (k : String) (v : γ)
    (p : String × γ) (h : p ∈ aset d k v) : p = (k, v) ∨ p ∈ d := by
  induction d with
  | nil => simpa [aset] using h
  | cons q rest ih =>
    obtain ⟨q1, w⟩ := q
    unfold aset at h
    split_ifs at h with hq
    · rcases List.mem_cons.mp h with h | h
      · exact Or.inl h
      · exact Or.inr (List.mem_cons_of_mem _ h)
    · rcases List.mem_cons.mp h with h | h
      · exact Or.inr (h ▸ List.mem_cons_self _ _)
      · rcases ih h with h | h
        · exact Or.inl h
        · exact Or.inr (List.mem_cons_of_mem _ h)

/-! ## Claim C8: graceful degradation of `loadBlockNames` -/

/-- C8: for any block slug not yet cached, if the per-block JSON file is
absent or reading/parsing it throws, `loadBlockNames` returns the empty name
map and caches the empty map under that slug — no error escapes the public
interface (the embedding is a total function: every failure path is caught). -/
theorem claim_C8 (fs : NamesFs) (cache : List (String × CharacterNames)) (slug : String)
    (hmiss : alookup cache slug = none)
    (hbad : fs.fileExists slug = false ∨ fs.readJson slug = none) :
    loadBlockNames fs cache slug = ([], aset cache slug []) ∧
      alookup (loadBlockNames fs cache slug).2 slug = some [] := by
  have hload : loadBlockNames fs cache slug = ([], aset cache slug []) := by
    unfold loadBlockNames
    rw [hmiss]
    rcases hbad with h | h
    · simp [h]
    · cases hex : fs.fileExists slug
      · simp [hex]
      · simp [hex, h]
  exact ⟨hload, by rw [hload]; exact alookup_aset_self cache slug []⟩

/-- C8 witness: a filesystem with no files and an empty cache. -/
theorem claim_C8_witness :
    loadBlockNames ⟨fun _ => false, fun _ => none⟩ [] "basic-latin-ascii" =
        ([], aset [] "basic-latin-ascii" []) ∧
      alookup (loadBlockNames ⟨fun _ => false, fun _ => none⟩ [] "basic-latin-ascii").2
          "basic-latin-ascii" = some [] :=
  claim_C8 ⟨fun _ => false, fun _ => none⟩ [] "basic-latin-ascii" rfl (Or.inl rfl)

/-! ## Hex digit list lemmas (for C9 and C6) -/

theorem toHexRevAux_congr : ∀ f1 f2 n : Nat, n ≤ f1 → n ≤ f2 →
    toHexRevAux f1 n = toHexRevAux f2 n := by
  intro f1
  induction f1 with
  | zero =>
    intro f2 n h1 h2
    have hn : n = 0 := by omega
    subst hn
    cases f2 with
    | zero => rfl
    | succ g => simp [toHexRevAux]
  | succ f ih =>
    intro f2 n h1 h2
    cases f2 with
    | zero =>
      have hn : n = 0 := by omega
      subst hn
      simp [toHexRevAux]
    | succ g =>
      simp only [toHexRevAux]
      split_ifs with hn
      · rfl
      · rw [ih g (n / 16) (by omega) (by omega)]

theorem hexDigitsRev_eq (n : Nat) :
    hexDigitsRev n = if n < 16 then [n] else n % 16 :: hexDigitsRev (n / 16) := by
  unfold hexDigitsRev
  cases n with
  | zero => simp [toHexRevAux]
  | succ m =>
    simp only [toHexRevAux]
    split_ifs with h
    · rfl
    · rw [toHexRevAux_congr m ((m + 1) / 16) ((m + 1) / 16) (by omega) (by omega)]

theorem hexDigitsRev_ne_nil (n : Nat) : hexDigitsRev n ≠ [] := by
  rw [hexDigitsRev_eq]
  split_ifs <;> simp

theorem hexDigitsRev_length_le (n : Nat) (h : n < 4096) : (hexDigitsRev n).length ≤ 3 := by
  rw [hexDigitsRev_eq]
  split_ifs with h1
  · simp
  · simp only [List.length_cons]
    rw [hexDigitsRev_eq]
    split_ifs with h2
    · simp
    · simp only [List.length_cons]
      rw [hexDigitsRev_eq]
      split_ifs with h3
      · simp
      · omega

theorem hexDigitsRev_length_ge (n : Nat) (h : 4096 ≤ n) : 4 ≤ (hexDigitsRev n).length := by
  rw [hexDigitsRev_eq, if_neg (by omega)]
  simp only [List.length_cons]
  rw [hexDigitsRev_eq, if_neg (by omega)]
  simp only [List.length_cons]
  rw [hexDigitsRev_eq, if_neg (by omega)]
  simp only [List.length_cons]
  have hne := hexDigitsRev_ne_nil (n / 16 / 16 / 16)
  have hpos := List.length_pos.mpr hne
  omega

theorem toUpperHexStr_length (n : Nat) :
    (toUpperHexStr n).data.length = (hexDigitsRev n).length := by
  simp [toUpperHexStr]

theorem padStart4_length_ge (s : String) : 4 ≤ (padStart4 s).data.length := by
  simp [padStart4]
  omega

theorem padStart4_of_length_ge (s : String) (h : 4 ≤ s.data.length) : padStart4 s = s := by
  cases s with
  | mk data =>
    simp only [padStart4]
    simp at h
    rw [Nat.sub_eq_zero_of_le h]
    simp

/-! ## Claim C9: the two `getCharacterName` copies -/

/-- C9: over name maps whose keys are all 4+-digit zero-padded uppercase hex
strings, the unpadded lookup (`unicode-names.server.ts`) finds nothing for any
code point below `0x1000` that has an entry, while the padded lookup (the
variant copy) returns the stored name; at or above `0x1000` the two functions
agree on every map. -/
theorem claim_C9 (names : CharacterNames) (cp : Nat)
    (hkeys : ∀ p ∈ names, ∃ n : Nat, p.1 = padStart4 (toUpperHexStr n)) :
    (cp < 0x1000 → ∀ v, alookup names (padStart4 (toUpperHexStr cp)) = some v →
      getCharacterNameUnpadded names cp = none ∧
        getCharacterNamePadded names cp = some v) ∧
    (0x1000 ≤ cp →
      getCharacterNameUnpadded names cp = getCharacterNamePadded names cp) := by
  constructor
  · intro hcp v hv
    refine ⟨?_, hv⟩
    unfold getCharacterNameUnpadded
    apply alookup_eq_none
    intro p hp heq
    obtain ⟨n, hn⟩ := hkeys p hp
    have h1 : 4 ≤ p.1.data.length := hn ▸ padStart4_length_ge _
    have h2 : (toUpperHexStr cp).data.length ≤ 3 := by
      rw [toUpperHexStr_length]
      exact hexDigitsRev_length_le cp (by omega)
    rw [heq] at h1
    omega
  · intro hcp
    unfold getCharacterNameUnpadded getCharacterNamePadded
    rw [padStart4_of_length_ge]
    rw [toUpperHexStr_length]
    exact hexDigitsRev_length_ge cp (by omega)

/-- C9 witness: the map `{"0041": "LATIN CAPITAL LETTER A"}` at `cp = 0x41`. -/
theorem claim_C9_witness :
    getCharacterNameUnpadded [("0041", "LATIN CAPITAL LETTER A")] 0x41 = none ∧
      getCharacterNamePadded [("0041", "LATIN CAPITAL LETTER A")] 0x41 =
        some "LATIN CAPITAL LETTER A" :=
  (claim_C9 [("0041", "LATIN CAPITAL LETTER A")] 0x41
      (fun p hp => by
        rw [List.mem_singleton] at hp
        subst hp
        exact ⟨0x41, by decide⟩)).1
    (by decide) "LATIN CAPITAL LETTER A" (by decide)

/-! ## Claim C6: per-block maps only hold keys inside the owning block -/

theorem takeWhile_of_all (p : Char → Bool) (l : List Char)
    (h : ∀ c ∈ l, p c = true) : l.takeWhile p = l := by
  induction l with
  | nil => rfl
  | cons c rest ih =>
    rw [List.takeWhile_cons, if_pos (h c (List.mem_cons_self _ _))]
    rw [ih (fun x hx => h x (List.mem_cons_of_mem _ hx))]

theorem isHexAttr_iff (s : String) :
    isHexAttr s = true ↔ s.data ≠ [] ∧ ∀ c ∈ s.data, isHexDigitChar c = true := by
  unfold isHexAttr
  rw [Bool.and_eq_true, List.all_eq_true, Bool.not_eq_true']
  constructor
  · exact fun ⟨h1, h2⟩ => ⟨fun hd => by simp [hd] at h1, h2⟩
  · refine fun ⟨h1, h2⟩ => ⟨?_, h2⟩
    cases hd : s.data with
    | nil => exact absurd hd h1
    | cons c rest => rfl

theorem jsParseIntHex_of_hexAttr (s : String) (h : isHexAttr s = true) :
    jsParseIntHex s.data = some (Int.ofNat (hexListVal s.data)) := by
  rw [isHexAttr_iff] at h
  obtain ⟨hne, hall⟩ := h
  cases hd : s.data with
  | nil => exact absurd hd hne
  | cons c rest =>
    have hc : isHexDigitChar c = true := hall c (hd ▸ List.mem_cons_self _ _)
    have hrest : ∀ x ∈ rest, isHexDigitChar x = true :=
      fun x hx => hall x (hd ▸ List.mem_cons_of_mem _ hx)
    have h0x : hexMark0xAt (c :: rest) = false := by
      cases rest with
      | nil => rfl
      | cons c1 r =>
        have hc1 : isHexDigitChar c1 = true := hrest c1 (List.mem_cons_self _ _)
        simp only [hexMark0xAt, decide_eq_false_iff_not]
        rintro ⟨h0, hx | hx⟩ <;> (rw [hx] at hc1; exact absurd hc1 (by decide))
    rw [jsParseIntHex_of_hexHead c rest hc h0x]
    unfold longestHexRunVal
    rw [takeWhile_of_all isHexDigitChar (c :: rest)
      (fun x hx => hall x (by rw [hd]; exact hx))]

theorem isHexAttr_toUpperStr (s : String) : isHexAttr (toUpperStr s) = isHexAttr s := by
  unfold isHexAttr toUpperStr
  have hhx : (isHexDigitChar ∘ toUpperChar) = isHexDigitChar :=
    funext isHexDigitChar_toUpperChar
  simp only [List.all_map, hhx, isEmpty_map_toUpper]

theorem hexListVal_toUpperStr (s : String) :
    hexListVal (toUpperStr s).data = hexListVal s.data :=
  hexListVal_map_toUpper s.data

theorem hexDigitsRev_all_lt (n : Nat) : ∀ d ∈ hexDigitsRev n, d < 16 := by
  induction n using Nat.strong_induction_on with
  | _ n ih =>
    rw [hexDigitsRev_eq]
    split_ifs with h
    · intro d hd
      rw [List.mem_singleton] at hd
      omega
    · intro d hd
      rcases List.mem_cons.mp hd with h1 | h1
      · omega
      · exact ih (n / 16) (by omega) d h1

theorem hexDigitVal_hexDigitChar (d : Nat) (h : d < 16) :
    hexDigitVal (hexDigitChar d) = d := by
  interval_cases d <;> decide

theorem isHexDigitChar_hexDigitChar (d : Nat) (h : d < 16) :
    isHexDigitChar (hexDigitChar d) = true := by
  interval_cases d <;> decide

theorem hexListVal_append_singleton (xs : List Char) (c : Char) :
    hexListVal (xs ++ [c]) = 16 * hexListVal xs + hexDigitVal c := by
  unfold hexListVal
  rw [List.foldl_append]
  simp only [List.foldl_cons, List.foldl_nil]
  omega

theorem hexListVal_toUpperHexStr (n : Nat) : hexListVal (toUpperHexStr n).data = n := by
  suffices h : ∀ m : Nat, hexListVal ((hexDigitsRev m).reverse.map hexDigitChar) = m by
    simpa [toUpperHexStr] using h n
  intro m
  induction m using Nat.strong_induction_on with
  | _ m ih =>
    rw [hexDigitsRev_eq]
    split_ifs with h
    · rw [List.reverse_singleton]
      simp only [List.map_cons, List.map_nil]
      simp [hexListVal, hexDigitVal_hexDigitChar m h]
    · rw [List.reverse_cons, List.map_append]
      simp only [List.map_cons, List.map_nil]
      rw [hexListVal_append_singleton, ih (m / 16) (by omega),
        hexDigitVal_hexDigitChar (m % 16) (by omega)]
      omega

theorem isHexAttr_toUpperHexStr (n : Nat) : isHexAttr (toUpperHexStr n) = true := by
  rw [isHexAttr_iff]
  constructor
  · simp only [toUpperHexStr]
    intro hd
    rw [List.map_eq_nil_iff, List.reverse_eq_nil_iff] at hd
    exact hexDigitsRev_ne_nil n hd
  · intro c hc
    simp only [toUpperHexStr] at hc
    obtain ⟨d, hd, rfl⟩ := List.mem_map.mp hc
    exact isHexDigitChar_hexDigitChar d
      (hexDigitsRev_all_lt n d (List.mem_reverse.mp hd))

theorem jsParseIntHex_toUpperHexStr (n : Nat) :
    jsParseIntHex (toUpperHexStr n).data = some (Int.ofNat n) := by
  rw [jsParseIntHex_of_hexAttr _ (isHexAttr_toUpperHexStr n), hexListVal_toUpperHexStr]

theorem slug_unique : ∀ b ∈ UNICODE_BLOCKS, ∀ c ∈ UNICODE_BLOCKS,
    b.slug = c.slug → b = c := by
  have hnd : (UNICODE_BLOCKS.map (fun b => b.slug)).Nodup := by decide
  exact fun b hb c hc h => List.inj_on_of_nodup_map hnd hb hc h

theorem findBlock_spec (cp : Nat) (b : UnicodeBlock)
    (h : findBlockForCodePoint cp = some b) :
    b ∈ UNICODE_BLOCKS ∧ b.start ≤ cp ∧ cp ≤ b.stop := by
  have hp := List.find?_some h
  simp only [Bool.and_eq_true, decide_eq_true_eq] at hp
  exact ⟨List.mem_of_find?_eq_some h, hp.1, hp.2⟩

theorem blockMapWellFormed_init : blockMapWellFormed initBlockMap := by
  intro slug data hmem key name hkey b hb hslug
  unfold initBlockMap at hmem
  obtain ⟨blk, hblk, heq⟩ := List.mem_map.mp hmem
  injection heq with h1 h2
  subst h2
  exact absurd hkey (List.not_mem_nil _)

theorem setBlockEntry_wf (m : BlockMap) (slug key name : String)
    (hm : blockMapWellFormed m)
    (hkey : ∀ b ∈ UNICODE_BLOCKS, b.slug = slug → keyInRangeOf b key) :
    blockMapWellFormed (setBlockEntry m slug key name) := by
  unfold setBlockEntry
  cases hl : alookup m slug with
  | none => exact hm
  | some data =>
    intro slug' data' hmem key' name' hkey' b hb hslug
    rcases aset_mem m slug (aset data key name) _ hmem with h | h
    · have h1 : slug' = slug := congrArg Prod.fst h
      have h2 : data' = aset data key name := congrArg Prod.snd h
      rw [h1] at hslug
      rw [h2] at hkey'
      rcases aset_mem data key name _ hkey' with h' | h'
      · have e1 : key' = key := congrArg Prod.fst h'
        rw [e1]
        exact hkey b hb hslug
      · exact hm slug data (alookup_mem m slug data hl) key' name' h' b hb hslug
    · exact hm slug' data' h key' name' hkey' b hb hslug

theorem parseUCDStep_wf (m : BlockMap) (e : CharElem)
    (hm : blockMapWellFormed m)
    (he : ∀ s, e.cp = some s → isHexAttr s = true) :
    blockMapWellFormed (parseUCDStep m e) := by
  obtain ⟨cpo, na, na1⟩ := e
  cases cpo with
  | none => exact hm
  | some cpStr =>
    have hhex := he cpStr rfl
    have h4 := jsParseIntHex_of_hexAttr cpStr hhex
    simp only [parseUCDStep, h4]
    split_ifs with hname
    · exact hm
    · cases hfb : findBlockForCodePoint (hexListVal cpStr.data) with
      | none => exact hm
      | some b =>
        apply setBlockEntry_wf m b.slug _ _ hm
        intro b' hb' hslug
        obtain ⟨hbmem, h1, h2⟩ := findBlock_spec _ b hfb
        have hbb : b' = b := slug_unique b' hb' b hbmem hslug
        subst hbb
        refine ⟨hexListVal cpStr.data, ?_, h1, h2⟩
        have h3 : isHexAttr (toUpperStr cpStr) = true := by
          rw [isHexAttr_toUpperStr]
          exact hhex
        rw [jsParseIntHex_of_hexAttr _ h3, hexListVal_toUpperStr]

theorem parseUCDXml_wf (elems : List CharElem) (h : elemsHexOk elems) :
    blockMapWellFormed (parseUCDXml elems) := by
  unfold parseUCDXml
  have haux : ∀ (l : List CharElem) (m : BlockMap), blockMapWellFormed m →
      (∀ e ∈ l, ∀ s, e.cp = some s → isHexAttr s = true) →
      blockMapWellFormed (l.foldl parseUCDStep m) := by
    intro l
    induction l with
    | nil => intro m hm _; exact hm
    | cons e rest ih =>
      intro m hm hl
      simp only [List.foldl_cons]
      exact ih (parseUCDStep m e)
        (parseUCDStep_wf m e hm (hl e (List.mem_cons_self _ _)))
        (fun x hx => hl x (List.mem_cons_of_mem _ hx))
  exact haux elems initBlockMap blockMapWellFormed_init h

theorem backfill_foldl_mem (guard : Nat → Bool) (gen : Nat → String) :
    ∀ (cps : List Nat) (d : CharacterData) (p : String × String),
      p ∈ cps.foldl (backfillStep guard gen) d →
      p ∈ d ∨ ∃ cp ∈ cps, p.1 = toUpperHexStr cp := by
  intro cps
  induction cps with
  | nil => intro d p h; exact Or.inl h
  | cons cp rest ih =>
    intro d p h
    simp only [List.foldl_cons] at h
    rcases ih (backfillStep guard gen d cp) p h with h' | h'
    · unfold backfillStep at h'
      split_ifs at h' with h1 h2
      · rcases aset_mem d (toUpperHexStr cp) (gen cp) p h' with h'' | h''
        · exact Or.inr ⟨cp, List.mem_cons_self _ _, by rw [h'']⟩
        · exact Or.inl h''
      · exact Or.inl h'
      · exact Or.inl h'
    · obtain ⟨cp', hcp', hp⟩ := h'
      exact Or.inr ⟨cp', List.mem_cons_of_mem _ hcp', hp⟩

theorem backfillRange_mem (d : CharacterData) (lo hi : Nat)
    (guard : Nat → Bool) (gen : Nat → String) (p : String × String)
    (h : p ∈ backfillRange d lo hi guard gen) :
    p ∈ d ∨ ∃ cp : Nat, lo ≤ cp ∧ cp ≤ hi ∧ p.1 = toUpperHexStr cp := by
  unfold backfillRange at h
  rcases backfill_foldl_mem guard gen _ d p h with h' | h'
  · exact Or.inl h'
  · obtain ⟨cp, hmem, hp⟩ := h'
    rw [List.mem_range'] at hmem
    obtain ⟨i, hi', hcp⟩ := hmem
    exact Or.inr ⟨cp, by omega, by omega, hp⟩

theorem backfill_block_wf (m : BlockMap) (b : UnicodeBlock)
    (guard : Nat → Bool) (gen : Nat → String)
    (hm : blockMapWellFormed m) (hb : b ∈ UNICODE_BLOCKS) :
    blockMapWellFormed
      (aset m b.slug
        (backfillRange ((alookup m b.slug).getD []) b.start b.stop guard gen)) := by
  intro slug' data' hmem key name hkey b' hb' hslug
  rcases aset_mem m b.slug _ _ hmem with h | h
  · have h1 : slug' = b.slug := congrArg Prod.fst h
    have h2 : data' =
        backfillRange ((alookup m b.slug).getD []) b.start b.stop guard gen :=
      congrArg Prod.snd h
    rw [h1] at hslug
    rw [h2] at hkey
    rcases backfillRange_mem _ _ _ _ _ _ hkey with h' | h'
    · cases hl : alookup m b.slug with
      | none =>
        rw [hl] at h'
        simp at h'
      | some d0 =>
        rw [hl] at h'
        exact hm b.slug d0 (alookup_mem _ _ _ hl) key name h' b' hb' hslug
    · obtain ⟨cp, hc1, hc2, hc3⟩ := h'
      have hbb : b' = b := slug_unique b' hb' b hb hslug
      subst hbb
      refine ⟨cp, ?_, hc1, hc2⟩
      rw [show key = toUpperHexStr cp from hc3, jsParseIntHex_toUpperHexStr]
  · exact hm slug' data' h key name hkey b' hb' hslug

theorem hangulStage_wf (m : BlockMap) (hm : blockMapWellFormed m) :
    blockMapWellFormed
      (match UNICODE_BLOCKS.find? (fun b => decide (b.slug = "hangul-syllables")) with
       | none => m
       | some hb =>
         aset m hb.slug
           (backfillRange ((alookup m hb.slug).getD []) hb.start hb.stop
             isHangulSyllable getHangulSyllableName)) := by
  cases hfind : UNICODE_BLOCKS.find? (fun b => decide (b.slug = "hangul-syllables")) with
  | none => exact hm
  | some hb => exact backfill_block_wf m hb _ _ hm (List.mem_of_find?_eq_some hfind)

theorem cjkFold_wf : ∀ (bl : List UnicodeBlock) (acc : BlockMap),
    (∀ b ∈ bl, b ∈ UNICODE_BLOCKS) → blockMapWellFormed acc →
    blockMapWellFormed (bl.foldl cjkBackfillStep acc) := by
  intro bl
  induction bl with
  | nil => intro acc _ hacc; exact hacc
  | cons b rest ih =>
    intro acc hsub hacc
    simp only [List.foldl_cons]
    refine ih _ (fun x hx => hsub x (List.mem_cons_of_mem _ hx)) ?_
    unfold cjkBackfillStep
    split_ifs with hc
    · exact backfill_block_wf acc b _ _ hacc (hsub b (List.mem_cons_self _ _))
    · exact hacc

theorem generateAlgorithmicNames_wf (m : BlockMap) (hm : blockMapWellFormed m) :
    blockMapWellFormed (generateAlgorithmicNames m) := by
  unfold generateAlgorithmicNames
  exact cjkFold_wf UNICODE_BLOCKS _ (fun b hb => hb) (hangulStage_wf m hm)

/-- C6: for any list of character elements whose `cp` attributes are what the
capture regex guarantees (non-empty hex digit strings), every key of every
per-block map produced by the parse pass followed by the Hangul and CJK
backfill stages parses (as hex) to a code point inside the owning block's
inclusive `[start, end]` range. -/
theorem claim_C6 (elems : List CharElem) (h : elemsHexOk elems) :
    blockMapWellFormed (generateAlgorithmicNames (parseUCDXml elems)) :=
  generateAlgorithmicNames_wf _ (parseUCDXml_wf elems h)

/-- C6 witness: the empty element list (the hypothesis holds vacuously). -/
theorem claim_C6_witness :
    blockMapWellFormed (generateAlgorithmicNames (parseUCDXml [])) :=
  claim_C6 [] (fun e he => absurd he (List.not_mem_nil e))
